import Mathlib

/-!
Verification of the strymon-core RPC multiplexing transport and coordinator
dispatch layer, shallowly embedded from the Rust sources
(`src/strymon_communication/src/rpc.rs`, `src/coordinator/dispatch.rs`,
`src/network/mod.rs`).
-/

set_option maxHeartbeats 1000000

namespace Strymon

/-- Modelled from the spec: the application payload carried by a serialized
section.  The concrete `message.rs` is not among the provided sources; per
spec section 3 a section holds opaque serialized bytes of one typed value, and
a typed pop fails on a type mismatch.  The constructors tag the value with its
type so that mismatching pops fail, as typed deserialization does. -/
inductive PVal where
  | submission (s : Nat)
  | addWorkerGroup (query : Nat) (group : Nat)
  | addExecutor (e : Nat)
  | raw (n : Nat)
  deriving DecidableEq, Repr

/-- Modelled from the spec: one typed, length-delimited section of a
`MessageBuf` (spec sections 3 "Message Frame" and 4.1; `message.rs` is not in
the provided sources).  `result` is a serialized `Result<Success, Error>`
tagged union as pushed by `Responder::respond`. -/
inductive Section where
  | u8 (b : Nat)
  | u32 (w : Nat)
  | str (s : String)
  | payload (p : PVal)
  | result (ok : Bool) (v : Nat)
  deriving DecidableEq, Repr

/-- Modelled from the spec: a message frame is an ordered sequence of sections;
pushes append at the tail and pops take from the head (spec section 3). -/
abbrev MessageBuf := List Section

/-- `MessageBuf::empty()`. -/
def MessageBuf.empty : MessageBuf := []

/-- `MessageBuf::push::<T>(value)` for a value whose serialization succeeded:
append the serialized section at the tail. -/
def MessageBuf.push (m : MessageBuf) (s : Section) : MessageBuf := m ++ [s]

/-- `MessageBuf::pop::<u8>()`: take the head section if it is a `u8`. -/
def MessageBuf.popU8 : MessageBuf → Option (Nat × MessageBuf)
  | Section.u8 b :: rest => some (b, rest)
  | _ => none

/-- `MessageBuf::pop::<u32>()` (used for the `RequestId`). -/
def MessageBuf.popU32 : MessageBuf → Option (Nat × MessageBuf)
  | Section.u32 w :: rest => some (w, rest)
  | _ => none

/-- `MessageBuf::pop::<String>()` (used for the request name). -/
def MessageBuf.popStr : MessageBuf → Option (String × MessageBuf)
  | Section.str s :: rest => some (s, rest)
  | _ => none

/-- `MessageBuf::pop::<R>()` for an application request payload. -/
def MessageBuf.popPayload : MessageBuf → Option (PVal × MessageBuf)
  | Section.payload p :: rest => some (p, rest)
  | _ => none

/-- `msg.pop::<Result<R::Success, R::Error>>()` as performed by
`Response::poll` (rpc.rs line 120). -/
def MessageBuf.popResult : MessageBuf → Option ((Bool × Nat) × MessageBuf)
  | Section.result ok v :: rest => some ((ok, v), rest)
  | _ => none

/-- The error values that flow through the rpc layer: `invalidData` is the
`io::Error` built by `Type::from_u8` (rpc.rs line 51), `decodingError` a failed
typed pop, `ioError` a socket read failure. -/
inductive RpcErr where
  | invalidData
  | decodingError
  | ioError
  deriving DecidableEq, Repr

/-- The `Type` enum of rpc.rs (lines 39-44): the single-byte wire
discriminator, `Request = 0`, `Response = 1`. -/
inductive MsgType where
  | request
  | response
  deriving DecidableEq, Repr

/-- `Type::Request as u8` and `Type::Response as u8` (the `repr(u8)` values). -/
def MsgType.toU8 : MsgType → Nat
  | .request => 0
  | .response => 1

/-- `Type::from_u8` (rpc.rs lines 46-54): only `0` and `1` are valid, any
other byte is an `InvalidData` error. -/
def MsgType.fromU8 : Nat → Except RpcErr MsgType
  | 0 => .ok .request
  | 1 => .ok .response
  | _ => .error .invalidData

/-- `RequestBuf` (rpc.rs lines 56-61): the undecoded server-side view of a
request.  The `origin: transport::Sender` handle is not part of the state the
claims quantify over and is modelled at respond time by the send log. -/
structure RequestBuf where
  id : Nat
  name : String
  msg : MessageBuf
  deriving DecidableEq, Repr

/-- The pending-response table `HashMap<RequestId, Pending>` of rpc.rs,
modelled as an association list from request id to the index of the oneshot
channel held by the matching `Response` handle.  Lookup takes the first
matching key; the reachable states keep keys unique, as a `HashMap` does. -/
abbrev PendingMap := List (Nat × Nat)

/-- `HashMap::get`-style lookup. -/
def pmLookup (i : Nat) (l : PendingMap) : Option Nat :=
  (l.find? (fun e => e.1 == i)).map (·.2)

/-- `HashMap::remove(&id)`: drop the entry with key `i`. -/
def pmRemove (i : Nat) (l : PendingMap) : PendingMap :=
  l.filter (fun e => e.1 ≠ i)

/-- `HashMap::insert(id, tx)`: replaces any existing entry with the same key. -/
def pmInsert (i j : Nat) (l : PendingMap) : PendingMap :=
  (i, j) :: pmRemove i l

/-- What `Resolver::decode` (rpc.rs lines 206-243) does to the world besides
updating the pending table: enqueue a request on the incoming queue, fulfil
the pending oneshot `j` with the remaining frame, or silently drop a response
whose id is not pending. -/
inductive DecodeEffect where
  | request (buf : RequestBuf)
  | fulfilled (j : Nat) (m : MessageBuf)
  | dropResponse (id : Nat)
  deriving DecidableEq, Repr

/-- `Resolver::decode` (rpc.rs lines 206-243): pop the kind byte and run it
through `Type::from_u8`, pop the id, then either build a `RequestBuf` from the
popped name and the remaining frame, or remove the pending entry for the id
and fulfil it with the remaining frame (dropping the response silently when no
entry is present). -/
def Resolver.decode (pending : PendingMap) (m : MessageBuf) :
    Except RpcErr (PendingMap × DecodeEffect) :=
  match MessageBuf.popU8 m with
  | none => .error .decodingError
  | some (b, m1) =>
    match MsgType.fromU8 b with
    | .error e => .error e
    | .ok ty =>
      match MessageBuf.popU32 m1 with
      | none => .error .decodingError
      | some (id, m2) =>
        match ty with
        | .request =>
          match MessageBuf.popStr m2 with
          | none => .error .decodingError
          | some (nm, m3) => .ok (pending, .request ⟨id, nm, m3⟩)
        | .response =>
          match pmLookup id pending with
          | some j => .ok (pmRemove id pending, .fulfilled j m2)
          | none => .ok (pending, .dropResponse id)

/-- One result of `MessageBuf::read` on the resolver's socket (rpc.rs line
251): a complete frame, orderly end of stream (`Ok(None)`), or an I/O error. -/
inductive ReadEvent where
  | frame (m : MessageBuf)
  | eof
  | ioFail
  deriving DecidableEq, Repr

deriving instance DecidableEq for Except

/-- An item of the `Incoming` queue: `Result<RequestBuf, io::Error>`. -/
abbrev IncomingItem := Except RpcErr RequestBuf

/-- The state the resolver thread manipulates: the shared pending table, the
incoming queue it feeds, the log of oneshot fulfilments it performed, and
whether it has shut the socket down. -/
structure ResolverSt where
  pending : PendingMap
  incoming : List IncomingItem
  fills : List (Nat × MessageBuf)
  shutdown : Bool
  deriving DecidableEq, Repr

/-- Apply one `DecodeEffect` together with the updated pending table. -/
def Resolver.applyEffect (st : ResolverSt) (p : PendingMap) (eff : DecodeEffect) :
    ResolverSt :=
  match eff with
  | .request buf => { st with pending := p, incoming := st.incoming ++ [.ok buf] }
  | .fulfilled j m => { st with pending := p, fills := st.fills ++ [(j, m)] }
  | .dropResponse _ => { st with pending := p }

/-- The loop body of `Resolver::dispatch` (rpc.rs lines 248-269) applied to
the whole sequence of socket reads: decode each received frame; on `Ok(None)`
break and shut down; on a read error or a decode error push the error once
onto the incoming queue, break, and shut down. -/
def Resolver.run (st : ResolverSt) : List ReadEvent → ResolverSt
  | [] => st
  | ev :: rest =>
    match ev with
    | .eof => { st with shutdown := true }
    | .ioFail => { st with incoming := st.incoming ++ [.error .ioError], shutdown := true }
    | .frame m =>
      match Resolver.decode st.pending m with
      | .ok (p, eff) => Resolver.run (Resolver.applyEffect st p eff) rest
      | .error e => { st with incoming := st.incoming ++ [.error e], shutdown := true }

/-- A frame that `Resolver::decode` accepts, characterised syntactically: its
success or failure does not depend on the pending table. -/
def frameOk (m : MessageBuf) : Bool :=
  match m with
  | Section.u8 0 :: Section.u32 _ :: Section.str _ :: _ => true
  | Section.u8 1 :: Section.u32 _ :: _ => true
  | _ => false

/-- The error `Resolver::decode` produces on a frame it rejects. -/
def decodeErrOf (m : MessageBuf) : RpcErr :=
  match m with
  | Section.u8 0 :: _ => .decodingError
  | Section.u8 1 :: _ => .decodingError
  | Section.u8 _ :: _ => .invalidData
  | _ => .decodingError

/-- The request frame built by steps 1 of `Outgoing::request` (rpc.rs lines
157-162): push `Type::Request as u8`, the id, `R::NAME`, and the serialized
payload, in that order. -/
def requestFrame (id : Nat) (name : String) (p : PVal) : MessageBuf :=
  MessageBuf.push
    (MessageBuf.push
      (MessageBuf.push
        (MessageBuf.push MessageBuf.empty (Section.u8 MsgType.request.toU8))
        (Section.u32 id))
      (Section.str name))
    (Section.payload p)

/-- The response frame built by `Responder::respond` (rpc.rs lines 87-92):
push `Type::Response as u8`, the captured id, and the `Result` tagged union,
in that order. -/
def responseFrame (id : Nat) (ok : Bool) (v : Nat) : MessageBuf :=
  MessageBuf.push
    (MessageBuf.push
      (MessageBuf.push MessageBuf.empty (Section.u8 MsgType.response.toU8))
      (Section.u32 id))
    (Section.result ok v)

/-- `Responder` (rpc.rs lines 80-84): the captured request id (the origin
sender is modelled by the send log passed to `respond`). -/
structure Responder where
  id : Nat
  deriving DecidableEq, Repr

/-- `Responder::respond` (rpc.rs lines 86-94): build the response frame and
enqueue it on the captured origin sender, modelled as appending to that
sender's log of sent frames. -/
def Responder.respond (r : Responder) (ok : Bool) (v : Nat)
    (sendLog : List MessageBuf) : List MessageBuf :=
  sendLog ++ [responseFrame r.id ok v]

/-- The state of one `oneshot::channel` created by `Outgoing::request`:
`waiting` while the sender sits in the pending table, `filled` once the
resolver sent the response frame remainder through it, `consumed` once the
`Response` future took the value, `closed` once the sender was dropped
without sending (cancellation). -/
inductive Oneshot where
  | waiting
  | filled (m : MessageBuf)
  | consumed
  | closed
  deriving DecidableEq, Repr

/-- The terminal outcomes of polling a `Response<R>` (rpc.rs lines 116-129):
the decoded success value, the decoded application error, or a transport
error (payload decode failure or cancellation). -/
inductive PollRes where
  | success (v : Nat)
  | appError (v : Nat)
  | transportError
  deriving DecidableEq, Repr

/-- Lifecycle of a `Response<R>` handle: live, resolved to a terminal poll
outcome, or dropped. -/
inductive HStatus where
  | live
  | done (r : PollRes)
  | dropped
  deriving DecidableEq, Repr

/-- One `Response<R>` handle: the request id it was issued with and its
lifecycle status.  The handle created by the `j`-th call to
`Outgoing::request` owns the `j`-th oneshot channel. -/
structure Handle where
  hid : Nat
  status : HStatus
  deriving DecidableEq, Repr

/-- The shared state of one multiplexer endpoint (rpc.rs `multiplex`, lines
310-336): the `AtomicUsize` id counter, the pending table, every `Response`
handle and oneshot channel created so far (index `j` pairs them), the log of
frames handed to the channel sender, and the incoming request queue.
`ghostReplaced` is instrumentation only: it counts pending entries that were
displaced by a `HashMap::insert` reusing their key, which can happen only
once the 32-bit id space wraps around. -/
structure MuxState where
  counter : Nat
  pending : PendingMap
  handles : List Handle
  oneshots : List Oneshot
  sentLog : List MessageBuf
  incomingQ : List RequestBuf
  ghostReplaced : Nat
  deriving DecidableEq, Repr

/-- The state `multiplex` starts from: counter `AtomicUsize::new(0)`, empty
pending table, nothing created or sent yet. -/
def MuxState.init : MuxState :=
  { counter := 0, pending := [], handles := [], oneshots := [],
    sentLog := [], incomingQ := [], ghostReplaced := 0 }

/-- `Outgoing::request` (rpc.rs lines 153-180): fetch-and-add the id counter
(an `AtomicUsize`, wrapping at `2^64`) and truncate the fetched value `as
u32`; create a fresh oneshot channel; insert `(id, tx)` into the pending
table (a `HashMap::insert`, which drops any displaced sender, closing its
channel); enqueue the request frame on the channel sender; return the new
`Response` handle. -/
def stepIssue (st : MuxState) (name : String) (p : PVal) : MuxState :=
  { counter := (st.counter + 1) % 2 ^ 64
    pending := pmInsert (st.counter % 2 ^ 32) st.handles.length st.pending
    handles := st.handles ++ [⟨st.counter % 2 ^ 32, .live⟩]
    oneshots :=
      (match pmLookup (st.counter % 2 ^ 32) st.pending with
       | some jOld => st.oneshots.set jOld .closed
       | none => st.oneshots) ++ [.waiting]
    sentLog := st.sentLog ++ [requestFrame (st.counter % 2 ^ 32) name p]
    incomingQ := st.incomingQ
    ghostReplaced := st.ghostReplaced +
      (if (pmLookup (st.counter % 2 ^ 32) st.pending).isSome then 1 else 0) }

/-- The resolver thread processing one inbound frame (rpc.rs lines 206-243),
seen from the shared multiplexer state: on a request, forward the
`RequestBuf` on the incoming queue; on a response, remove the pending entry
and fulfil its oneshot with the remaining frame, or drop it silently if no
entry exists.  A decode error makes the resolver exit without touching the
pending table. -/
def stepDeliver (st : MuxState) (m : MessageBuf) : MuxState :=
  match Resolver.decode st.pending m with
  | .error _ => st
  | .ok (p, eff) =>
    match eff with
    | .request buf => { st with pending := p, incomingQ := st.incomingQ ++ [buf] }
    | .fulfilled j rest =>
      { st with pending := p, oneshots := st.oneshots.set j (.filled rest) }
    | .dropResponse _ => { st with pending := p }

/-- `Response::drop` (rpc.rs lines 132-139) of handle `j`: remove the entry
keyed by the handle's id from the pending table; the removed sender is
dropped, which closes the oneshot it fed. -/
def stepDrop (st : MuxState) (j : Nat) : MuxState :=
  match st.handles[j]? with
  | none => st
  | some h =>
    if h.status = .dropped then st
    else
      { st with
        pending := pmRemove h.hid st.pending
        oneshots :=
          match pmLookup h.hid st.pending with
          | some jTx => st.oneshots.set jTx .closed
          | none => st.oneshots
        handles := st.handles.set j ⟨h.hid, .dropped⟩ }

/-- The decoding a `Response<R>` performs on the frame it received through
its oneshot (rpc.rs lines 118-124): pop the `Result` tagged union; `Ok` is
the success value, `Err` the application error, a failed pop a transport
error. -/
def pollDecode (m : MessageBuf) : PollRes :=
  match MessageBuf.popResult m with
  | some ((true, v), _) => .success v
  | some ((false, v), _) => .appError v
  | none => .transportError

/-- `Response::poll` (rpc.rs lines 116-129) on handle `j`: a filled oneshot
resolves to the decoded payload, a closed oneshot (sender dropped without
sending) to the "request canceled" transport error; otherwise not ready. -/
def stepPoll (st : MuxState) (j : Nat) : MuxState :=
  match st.handles[j]? with
  | none => st
  | some h =>
    match h.status with
    | .live =>
      match st.oneshots[j]? with
      | some (.filled m) =>
        { st with
          handles := st.handles.set j ⟨h.hid, .done (pollDecode m)⟩
          oneshots := st.oneshots.set j .consumed }
      | some .closed =>
        { st with handles := st.handles.set j ⟨h.hid, .done .transportError⟩ }
      | _ => st
    | _ => st

/-- The interleaved events of one multiplexer endpoint: a request issued on
(any clone of) its `Outgoing`, the resolver processing one inbound frame, a
`Response` handle being dropped, and a `Response` handle being polled. -/
inductive Op where
  | issue (name : String) (p : PVal)
  | deliver (m : MessageBuf)
  | dropResp (j : Nat)
  | poll (j : Nat)
  deriving DecidableEq, Repr

/-- One interleaving step. -/
def step (st : MuxState) (op : Op) : MuxState :=
  match op with
  | .issue name p => stepIssue st name p
  | .deliver m => stepDeliver st m
  | .dropResp j => stepDrop st j
  | .poll j => stepPoll st j

/-- The multiplexer state after an arbitrary interleaving of operations,
starting from the state `multiplex` sets up. -/
def applyTrace (tr : List Op) : MuxState :=
  tr.foldl step MuxState.init

/-- Number of `Outgoing::request` calls in a trace. -/
def issueCount (tr : List Op) : Nat :=
  tr.countP (fun op => match op with | .issue _ _ => true | _ => false)

/-- The remainder of the response frame the peer's `Responder` produced for
request id `i`, given the peer's per-id answer `resp`: the serialized
`Result` tagged union. -/
def respPayloadFrame (resp : Nat → Bool × Nat) (i : Nat) : MessageBuf :=
  [Section.result (resp i).1 (resp i).2]

/-- The terminal poll outcome matching the peer's answer for id `i`: its
payload decoded as a success or as an application error. -/
def pollResFor (resp : Nat → Bool × Nat) (i : Nat) : PollRes :=
  if (resp i).1 then .success (resp i).2 else .appError (resp i).2

/-- A frame agrees with the peer answer function `resp`: if it is a response
frame for id `i`, its remainder is exactly what the peer's single-shot
`Responder` for `i` produced. -/
def ConformingFrame (resp : Nat → Bool × Nat) (m : MessageBuf) : Prop :=
  ∀ i rest, m = Section.u8 1 :: Section.u32 i :: rest → rest = respPayloadFrame resp i

/-- The primitive steps of the body of `Outgoing::request` (rpc.rs lines
153-180) in program order: allocate the id, create the oneshot channel, build
the request frame, insert `(id, tx)` into the pending table, enqueue the
frame on the channel sender, return the `Response`. -/
inductive ReqAction where
  | allocateId
  | createChannel
  | buildFrame
  | insertPending
  | sendFrame
  | returnHandle
  deriving DecidableEq, Repr

/-- The statement order of the body of `Outgoing::request`, read off rpc.rs
lines 153-180 (steps 1-4 in its comments). -/
def requestProgramOrder : List ReqAction :=
  [.allocateId, .createChannel, .buildFrame, .insertPending, .sendFrame, .returnHandle]

/-- The error carried by `Stop::Fail` in `Dispatch::dispatch`
(coordinator/dispatch.rs): the `InvalidData` "invalid request" error for an
unrecognized name, or a failed typed decode of a recognized request. -/
inductive DispatchError where
  | invalidRequest
  | decodingError
  deriving DecidableEq, Repr

/-- Modelled from the spec: `async::do_while::Stop` (not among the provided
sources); `Stop::Fail` carries the fatal error that stops consumption of the
connection's `Incoming` stream (spec section 4.5). -/
inductive Stop where
  | terminate
  | fail (e : DispatchError)
  deriving DecidableEq, Repr

/-- The state `Dispatch` owns per connection (coordinator/dispatch.rs lines
19-23), restricted to what the claims are about: the `BTreeSet<State>` of
connection-bound tokens, holding `State::Executor(id)` values. -/
structure DispatchState where
  associated : List Nat
  deriving DecidableEq, Repr

/-- `BTreeSet::insert`: a set never holds duplicates. -/
def btreeInsert (x : Nat) (l : List Nat) : List Nat :=
  if x ∈ l then l else l ++ [x]

/-- What a `Dispatch::dispatch` arm does besides updating the token set:
spawn the submission handler, spawn the add-worker-group handler, or respond
to an `AddExecutor` with the id the coordinator assigned. -/
inductive DispatchEffect where
  | spawnSubmission (s : Nat)
  | spawnAddWorkerGroup (query : Nat) (group : Nat)
  | respondAddExecutor (id : Nat)
  deriving DecidableEq, Repr

/-- `Dispatch::dispatch` (coordinator/dispatch.rs lines 35-67): route by
`req.name()`; each recognized name decodes the payload as its associated
request type (a failed decode propagates as a `Stop` error through `?`) and
dispatches to the matching handler; the `AddExecutor` arm additionally
inserts the `Executor(id)` token into the associated set; every other name
returns `Stop::Fail` with the `InvalidData` "invalid request" error.  The
coordinator's `add_executor` is abstracted as the id-assigning function
`addExec`. -/
def Dispatch.dispatch (addExec : Nat → Nat) (d : DispatchState) (req : RequestBuf) :
    Except Stop (DispatchState × DispatchEffect) :=
  match req.name with
  | "Submission" =>
    match MessageBuf.popPayload req.msg with
    | some (PVal.submission s, _) => .ok (d, .spawnSubmission s)
    | _ => .error (.fail .decodingError)
  | "AddWorkerGroup" =>
    match MessageBuf.popPayload req.msg with
    | some (PVal.addWorkerGroup q g, _) => .ok (d, .spawnAddWorkerGroup q g)
    | _ => .error (.fail .decodingError)
  | "AddExecutor" =>
    match MessageBuf.popPayload req.msg with
    | some (PVal.addExecutor e, _) =>
      .ok ({ d with associated := btreeInsert (addExec e) d.associated },
           .respondAddExecutor (addExec e))
    | _ => .error (.fail .decodingError)
  | _ => .error (.fail .invalidRequest)

/-- Modelled from the spec: the connection's consumption of its `Incoming`
stream (the `async::do_while` driver is not among the provided sources):
dispatch each `RequestBuf` in order and stop at the first `Stop` error,
leaving the rest of the stream unconsumed (spec section 4.5). -/
def Dispatch.consume (addExec : Nat → Nat) (d : DispatchState) :
    List RequestBuf → DispatchState × List DispatchEffect × Option Stop
  | [] => (d, [], none)
  | r :: rest =>
    match Dispatch.dispatch addExec d r with
    | .error e => (d, [], some e)
    | .ok (d', eff) =>
      let out := Dispatch.consume addExec d' rest
      (out.1, eff :: out.2.1, out.2.2)

/-- A call `Dispatch::drop` makes into the coordinator. -/
inductive CoordCall where
  | removeExecutor (id : Nat)
  deriving DecidableEq, Repr

/-- `Dispatch::drop` (coordinator/dispatch.rs lines 70-78): walk the
associated token set and invoke `remove_executor(id)` for each
`Executor(id)` token. -/
def Dispatch.dropCalls (d : DispatchState) : List CoordCall :=
  d.associated.map CoordCall.removeExecutor

/-- The observable configuration a listener constructor produces: the host
part of the socket address passed to `TcpListener::bind`, the advertised
external hostname, and the bound port reported by `local_addr` (the
OS-assigned port is abstracted as `boundPort`). -/
structure ListenerModel where
  bindHost : String
  external : String
  port : Nat
  deriving DecidableEq, Repr

/-- `Listener::new` (network/mod.rs lines 134-161): binds to
`("::", port)` and keeps the configured external hostname only for
advertisement. -/
def Listener.new (external : String) (boundPort : Nat) : ListenerModel :=
  { bindHost := "::", external := external, port := boundPort }

/-- `Server::new` (rpc.rs lines 281-293): binds to `("0.0.0.0", port)` and
keeps `network.hostname` only for advertisement. -/
def Server.new (hostname : String) (boundPort : Nat) : ListenerModel :=
  { bindHost := "0.0.0.0", external := hostname, port := boundPort }

/-- `external_addr` (network/mod.rs lines 163-165 and rpc.rs lines 295-297):
the advertised endpoint is the external hostname with the bound port. -/
def externalAddrOf (l : ListenerModel) : String × Nat :=
  (l.external, l.port)

/-- Modelled from the spec: `MessageBuf::push` serializes the value and can
fail with an `EncodingError` (spec section 4.1; `message.rs` is not among the
provided sources).  The serializer's outcome is passed in as an `Option`;
`none` is a failed serialization. -/
def MessageBuf.pushEnc (m : MessageBuf) (enc : Option Section) : Option MessageBuf :=
  enc.map (MessageBuf.push m)

/-- Serializing a `u8` never fails. -/
def serU8 (b : Nat) : Option Section := some (Section.u8 b)

/-- Serializing a `u32` never fails. -/
def serU32 (w : Nat) : Option Section := some (Section.u32 w)

/-- Serializing a string never fails. -/
def serStr (s : String) : Option Section := some (Section.str s)

/-- The frame-building prologue of `Outgoing::request` (rpc.rs lines
157-162) with each `push(..).unwrap()` made explicit: a `none` outcome is
the panic raised by `unwrap` on a failed serialization; the caller never
sees an error value. -/
def Outgoing.requestOutcome (id : Nat) (name : String)
    (encPayload : Option Section) : Option MessageBuf := do
  let m1 ← MessageBuf.pushEnc MessageBuf.empty (serU8 MsgType.request.toU8)
  let m2 ← MessageBuf.pushEnc m1 (serU32 id)
  let m3 ← MessageBuf.pushEnc m2 (serStr name)
  MessageBuf.pushEnc m3 encPayload

/-- The body of `Responder::respond` (rpc.rs lines 86-94) with each
`push(..).unwrap()` made explicit: a `none` outcome is the panic raised by
`unwrap` on a failed serialization of the result payload; `respond` returns
`()` and has no error channel. -/
def Responder.respondOutcome (id : Nat) (encRes : Option Section) :
    Option MessageBuf := do
  let m1 ← MessageBuf.pushEnc MessageBuf.empty (serU8 MsgType.response.toU8)
  let m2 ← MessageBuf.pushEnc m1 (serU32 id)
  MessageBuf.pushEnc m2 encRes

/-- The structural invariant of a reachable multiplexer state, holding for
every interleaving: pending-table keys are unique; oneshots and handles pair
up; every pending entry points at the live handle that was issued with that
id, whose oneshot is still waiting; the id stored in the `j`-th handle is the
truncated counter value `j mod 2^32`; and the counter tracks the number of
issued requests modulo the `AtomicUsize` width. -/
structure StructInv (st : MuxState) : Prop where
  keysNodup : (st.pending.map Prod.fst).Nodup
  lenEq : st.oneshots.length = st.handles.length
  pendingOk : ∀ (i j : Nat), pmLookup i st.pending = some j →
      st.handles[j]? = some ⟨i, HStatus.live⟩ ∧ st.oneshots[j]? = some Oneshot.waiting
  idOk : ∀ (j : Nat) (h : Handle), st.handles[j]? = some h → h.hid = j % 2 ^ 32
  counterOk : st.counter = st.handles.length % 2 ^ 64

/-- The correlation invariant relative to the peer's per-id answer function:
a filled oneshot holds exactly the payload the peer produced for its
handle's id, and a resolved handle resolved either to a transport error or
to that payload decoded as success or application error. -/
structure DecInv (resp : Nat → Bool × Nat) (st : MuxState) : Prop where
  filledOk : ∀ (j : Nat) (m : MessageBuf), st.oneshots[j]? = some (Oneshot.filled m) →
      ∃ h : Handle, st.handles[j]? = some h ∧ m = respPayloadFrame resp h.hid
  doneOk : ∀ (j : Nat) (h : Handle) (r : PollRes), st.handles[j]? = some h →
      h.status = HStatus.done r →
      r = PollRes.transportError ∨ r = pollResFor resp h.hid

/-- A concrete peer answer function for the correlation witness. -/
def c1RespW : Nat → Bool × Nat := fun i => (true, i + 100)

/-- A concrete interleaving for the correlation witness: issue one request,
deliver its response frame, poll the handle. -/
def c1TrW : List Op :=
  [Op.issue "Ping" (PVal.raw 5),
   Op.deliver [Section.u8 1, Section.u32 0, Section.result true 100],
   Op.poll 0]

/-- A concrete interleaving for the pending-table witness: two requests, the
first response delivered and its handle polled, the second handle dropped. -/
def c2TrW : List Op :=
  [Op.issue "Ping" (PVal.raw 1),
   Op.issue "Ping" (PVal.raw 2),
   Op.deliver [Section.u8 1, Section.u32 0, Section.result true 7],
   Op.poll 0,
   Op.dropResp 1]

/-- A concrete clean prefix for the resolver-termination witness. -/
def c4PreW : List MessageBuf :=
  [[Section.u8 0, Section.u32 1, Section.str "Ping", Section.payload (PVal.raw 5)]]

/-- A resolver state for witnesses: fresh, nothing pending or received. -/
def resolverStW : ResolverSt :=
  { pending := [], incoming := [], fills := [], shutdown := false }

/-- A resolver state with one pending entry, for the discard witness. -/
def resolverStW5 : ResolverSt :=
  { pending := [(5, 0)], incoming := [], fills := [], shutdown := false }

theorem pmLookup_nil (a : Nat) : pmLookup a [] = none := rfl

theorem pmLookup_cons (a : Nat) (e : Nat × Nat) (l : PendingMap) :
    pmLookup a (e :: l) = if e.1 = a then some e.2 else pmLookup a l := by
  simp only [pmLookup, List.find?]
  by_cases h : e.1 = a
  · simp [h]
  · simp [h, beq_eq_false_iff_ne.mpr h]

theorem pmLookup_remove (a i : Nat) (l : PendingMap) :
    pmLookup a (pmRemove i l) = if a = i then none else pmLookup a l := by
  induction l with
  | nil => simp [pmRemove, pmLookup_nil]
  | cons e t ih =>
    by_cases he : e.1 = i
    · have : pmRemove i (e :: t) = pmRemove i t := by
        simp [pmRemove, he]
      rw [this, ih, pmLookup_cons]
      by_cases ha : a = i
      · simp [ha, he]
      · have : e.1 ≠ a := by omega
        simp [ha, this]
    · have : pmRemove i (e :: t) = e :: pmRemove i t := by
        simp [pmRemove, he]
      rw [this, pmLookup_cons, pmLookup_cons, ih]
      by_cases ha : e.1 = a
      · have : ¬ a = i := by omega
        simp [ha, this]
      · simp [ha]

theorem pmLookup_insert (a i j : Nat) (l : PendingMap) :
    pmLookup a (pmInsert i j l) = if a = i then some j else pmLookup a l := by
  rw [pmInsert, pmLookup_cons, pmLookup_remove]
  by_cases h : a = i
  · simp [h]
  · have : i ≠ a := by omega
    simp [h, this]

theorem pmRemove_keys_nodup (i : Nat) (l : PendingMap)
    (h : (l.map Prod.fst).Nodup) : ((pmRemove i l).map Prod.fst).Nodup :=
  h.sublist ((List.filter_sublist l).map Prod.fst)

theorem pmInsert_keys_nodup (i j : Nat) (l : PendingMap)
    (h : (l.map Prod.fst).Nodup) : ((pmInsert i j l).map Prod.fst).Nodup := by
  refine List.nodup_cons.mpr ⟨?_, pmRemove_keys_nodup i l h⟩
  intro hmem
  obtain ⟨e, he, hfst⟩ := List.mem_map.mp hmem
  have := List.of_mem_filter he
  simp only [ne_eq, decide_not, Bool.not_eq_true', decide_eq_false_iff_not] at this
  exact this hfst

theorem decode_req_frame (p : PendingMap) (i : Nat) (nm : String) (r : MessageBuf) :
    Resolver.decode p (Section.u8 0 :: Section.u32 i :: Section.str nm :: r)
      = .ok (p, .request ⟨i, nm, r⟩) := rfl

theorem decode_resp_found (p : PendingMap) (i j : Nat) (r : MessageBuf)
    (h : pmLookup i p = some j) :
    Resolver.decode p (Section.u8 1 :: Section.u32 i :: r)
      = .ok (pmRemove i p, .fulfilled j r) := by
  simp [Resolver.decode, MessageBuf.popU8, MessageBuf.popU32, MsgType.fromU8, h]

theorem decode_resp_missing (p : PendingMap) (i : Nat) (r : MessageBuf)
    (h : pmLookup i p = none) :
    Resolver.decode p (Section.u8 1 :: Section.u32 i :: r)
      = .ok (p, .dropResponse i) := by
  simp [Resolver.decode, MessageBuf.popU8, MessageBuf.popU32, MsgType.fromU8, h]

theorem frameOk_shape (m : MessageBuf) (h : frameOk m = true) :
    (∃ i nm r, m = Section.u8 0 :: Section.u32 i :: Section.str nm :: r) ∨
    (∃ i r, m = Section.u8 1 :: Section.u32 i :: r) := by
  rcases m with _ | ⟨b | w | sv | pv | ⟨ok, v⟩, m1⟩
  · simp [frameOk] at h
  case cons.u32 => simp [frameOk] at h
  case cons.str => simp [frameOk] at h
  case cons.payload => simp [frameOk] at h
  case cons.result => simp [frameOk] at h
  rcases b with _ | (_ | b)
  · rcases m1 with _ | ⟨b1 | w1 | sv1 | pv1 | ⟨ok1, v1⟩, m2⟩
    · simp [frameOk] at h
    case cons.u8 => simp [frameOk] at h
    case cons.str => simp [frameOk] at h
    case cons.payload => simp [frameOk] at h
    case cons.result => simp [frameOk] at h
    rcases m2 with _ | ⟨b2 | w2 | sv2 | pv2 | ⟨ok2, v2⟩, m3⟩
    · simp [frameOk] at h
    case cons.u8 => simp [frameOk] at h
    case cons.u32 => simp [frameOk] at h
    case cons.payload => simp [frameOk] at h
    case cons.result => simp [frameOk] at h
    exact Or.inl ⟨w1, sv2, m3, rfl⟩
  · rcases m1 with _ | ⟨b1 | w1 | sv1 | pv1 | ⟨ok1, v1⟩, m2⟩
    · simp [frameOk] at h
    case cons.u8 => simp [frameOk] at h
    case cons.str => simp [frameOk] at h
    case cons.payload => simp [frameOk] at h
    case cons.result => simp [frameOk] at h
    exact Or.inr ⟨w1, m2, rfl⟩
  · simp [frameOk] at h

theorem decode_frameBad (p : PendingMap) (m : MessageBuf) (h : frameOk m = false) :
    Resolver.decode p m = .error (decodeErrOf m) := by
  rcases m with _ | ⟨b | w | sv | pv | ⟨ok, v⟩, m1⟩
  · rfl
  case cons.u32 => rfl
  case cons.str => rfl
  case cons.payload => rfl
  case cons.result => rfl
  rcases b with _ | (_ | b)
  · rcases m1 with _ | ⟨b1 | w1 | sv1 | pv1 | ⟨ok1, v1⟩, m2⟩
    · rfl
    case cons.u8 => rfl
    case cons.str => rfl
    case cons.payload => rfl
    case cons.result => rfl
    rcases m2 with _ | ⟨b2 | w2 | sv2 | pv2 | ⟨ok2, v2⟩, m3⟩
    · rfl
    case cons.u8 => rfl
    case cons.u32 => rfl
    case cons.payload => rfl
    case cons.result => rfl
    simp [frameOk] at h
  · rcases m1 with _ | ⟨b1 | w1 | sv1 | pv1 | ⟨ok1, v1⟩, m2⟩
    · rfl
    case cons.u8 => rfl
    case cons.str => rfl
    case cons.payload => rfl
    case cons.result => rfl
    simp [frameOk] at h
  · rfl

theorem decode_frameOk_ex (p : PendingMap) (m : MessageBuf) (h : frameOk m = true) :
    ∃ out, Resolver.decode p m = .ok out := by
  rcases frameOk_shape m h with ⟨i, nm, r, rfl⟩ | ⟨i, r, rfl⟩
  · exact ⟨_, decode_req_frame p i nm r⟩
  · rcases hl : pmLookup i p with _ | j
    · exact ⟨_, decode_resp_missing p i r hl⟩
    · exact ⟨_, decode_resp_found p i j r hl⟩

/-- Inversion of a successful `Resolver::decode`: either the pending table is
untouched (request or silently dropped response), or the frame was a response
for a pending id whose entry was removed and fulfilled. -/
theorem decode_ok_inv (p p' : PendingMap) (m : MessageBuf) (eff : DecodeEffect)
    (h : Resolver.decode p m = .ok (p', eff)) :
    (p' = p ∧ ∀ j r, eff ≠ .fulfilled j r) ∨
    (∃ i j r, m = Section.u8 1 :: Section.u32 i :: r ∧ pmLookup i p = some j ∧
      p' = pmRemove i p ∧ eff = .fulfilled j r) := by
  rcases hok : frameOk m with _ | _
  · rw [decode_frameBad p m hok] at h
    exact absurd h (by simp)
  · rcases frameOk_shape m hok with ⟨i, nm, r, rfl⟩ | ⟨i, r, rfl⟩
    · rw [decode_req_frame] at h
      obtain ⟨hp, heff⟩ : p = p' ∧ DecodeEffect.request ⟨i, nm, r⟩ = eff := by
        simpa using h
      exact Or.inl ⟨hp.symm, by simp [← heff]⟩
    · rcases hl : pmLookup i p with _ | j
      · rw [decode_resp_missing p i r hl] at h
        obtain ⟨hp, heff⟩ : p = p' ∧ DecodeEffect.dropResponse i = eff := by
          simpa using h
        exact Or.inl ⟨hp.symm, by simp [← heff]⟩
      · rw [decode_resp_found p i j r hl] at h
        obtain ⟨hp, heff⟩ : pmRemove i p = p' ∧ DecodeEffect.fulfilled j r = eff := by
          simpa using h
        exact Or.inr ⟨i, j, r, rfl, hl, hp.symm, heff.symm⟩

theorem run_append_ok (pre : List MessageBuf) :
    ∀ st : ResolverSt, (∀ m ∈ pre, frameOk m = true) → ∀ tail,
      Resolver.run st (pre.map ReadEvent.frame ++ tail)
        = Resolver.run (Resolver.run st (pre.map ReadEvent.frame)) tail := by
  induction pre with
  | nil => intro st _ tail; rfl
  | cons m pre ih =>
    intro st hok tail
    obtain ⟨⟨p, eff⟩, hout⟩ := decode_frameOk_ex st.pending m (hok m (by simp))
    simp only [List.map_cons, List.cons_append, Resolver.run, hout]
    exact ih _ (fun m' hm' => hok m' (by simp [hm'])) tail

theorem run_ok_incoming (pre : List MessageBuf) :
    ∀ st : ResolverSt, (∀ m ∈ pre, frameOk m = true) →
      ∃ items, (Resolver.run st (pre.map ReadEvent.frame)).incoming = st.incoming ++ items
        ∧ ∀ x ∈ items, ∃ buf, x = Except.ok buf := by
  induction pre with
  | nil => intro st _; exact ⟨[], by simp [Resolver.run], by simp⟩
  | cons m pre ih =>
    intro st hok
    obtain ⟨⟨p, eff⟩, hout⟩ := decode_frameOk_ex st.pending m (hok m (by simp))
    have hstep : Resolver.run st ((m :: pre).map ReadEvent.frame)
        = Resolver.run (Resolver.applyEffect st p eff) (pre.map ReadEvent.frame) := by
      simp only [List.map_cons, Resolver.run, hout]
    obtain ⟨items, hitems, hall⟩ :=
      ih (Resolver.applyEffect st p eff) (fun m' hm' => hok m' (by simp [hm']))
    cases eff with
    | request buf =>
      refine ⟨Except.ok buf :: items, ?_, ?_⟩
      · rw [hstep, hitems]
        simp [Resolver.applyEffect]
      · intro x hx
        rcases List.mem_cons.mp hx with hx | hx
        · exact ⟨buf, hx⟩
        · exact hall x hx
    | fulfilled j r =>
      refine ⟨items, ?_, hall⟩
      rw [hstep, hitems]
      simp [Resolver.applyEffect]
    | dropResponse i =>
      refine ⟨items, ?_, hall⟩
      rw [hstep, hitems]
      simp [Resolver.applyEffect]

/-- C4: whenever the Resolver hits a decode error on an inbound frame
(including a leading kind byte other than 0 or 1) or an I/O read error, it
pushes that error exactly once onto the incoming queue, stops its loop
(everything after the failing read is never examined), and shuts the socket
down; on orderly end-of-stream it pushes nothing, exits and shuts down, and
the incoming items produced by a clean run are all `Ok` requests, so the
`Incoming` stream ends without an error. -/
theorem c4_resolver_error_handling (pre : List MessageBuf) (st : ResolverSt)
    (hpre : ∀ m ∈ pre, frameOk m = true) (bad : MessageBuf)
    (hbad : frameOk bad = false) (rest : List ReadEvent) :
    (Resolver.run st (pre.map ReadEvent.frame ++ ReadEvent.ioFail :: rest)
       = { Resolver.run st (pre.map ReadEvent.frame) with
           incoming := (Resolver.run st (pre.map ReadEvent.frame)).incoming
             ++ [Except.error RpcErr.ioError]
           shutdown := true })
    ∧ (Resolver.run st (pre.map ReadEvent.frame ++ ReadEvent.frame bad :: rest)
       = { Resolver.run st (pre.map ReadEvent.frame) with
           incoming := (Resolver.run st (pre.map ReadEvent.frame)).incoming
             ++ [Except.error (decodeErrOf bad)]
           shutdown := true })
    ∧ (Resolver.run st (pre.map ReadEvent.frame ++ ReadEvent.eof :: rest)
       = { Resolver.run st (pre.map ReadEvent.frame) with shutdown := true })
    ∧ (∃ items, (Resolver.run st (pre.map ReadEvent.frame)).incoming
          = st.incoming ++ items ∧ ∀ x ∈ items, ∃ buf, x = Except.ok buf) := by
  refine ⟨?_, ?_, ?_, run_ok_incoming pre st hpre⟩
  · rw [run_append_ok pre st hpre]; rfl
  · rw [run_append_ok pre st hpre]
    simp [Resolver.run, decode_frameBad _ bad hbad]
  · rw [run_append_ok pre st hpre]; rfl

/-- C4 witness: a clean request frame followed by an I/O error yields exactly
one error on the incoming queue, shutdown, and no processing of later events. -/
theorem c4_resolver_error_handling_witness :
    Resolver.run resolverStW (c4PreW.map ReadEvent.frame ++ ReadEvent.ioFail :: [ReadEvent.eof])
      = { Resolver.run resolverStW (c4PreW.map ReadEvent.frame) with
          incoming := (Resolver.run resolverStW (c4PreW.map ReadEvent.frame)).incoming
            ++ [Except.error RpcErr.ioError]
          shutdown := true } :=
  (c4_resolver_error_handling c4PreW resolverStW (by decide) [Section.u8 9]
    (by decide) [ReadEvent.eof]).1

/-- C5: an inbound response frame whose id has no pending entry is discarded
silently: the decode succeeds with the pending table unchanged and a
`dropResponse` effect (nothing removed, no oneshot fulfilled), the resolver
does not terminate, and it continues with the subsequent frames from exactly
the same state, so no pending `Response` is affected. -/
theorem c5_unknown_response_discarded (st : ResolverSt) (i : Nat)
    (m : MessageBuf) (rest : List ReadEvent)
    (h : pmLookup i st.pending = none) :
    Resolver.decode st.pending (Section.u8 1 :: Section.u32 i :: m)
        = .ok (st.pending, .dropResponse i)
    ∧ Resolver.run st (ReadEvent.frame (Section.u8 1 :: Section.u32 i :: m) :: rest)
        = Resolver.run st rest := by
  refine ⟨decode_resp_missing st.pending i m h, ?_⟩
  simp only [Resolver.run, decode_resp_missing st.pending i m h]
  have heta : Resolver.applyEffect st st.pending (DecodeEffect.dropResponse i) = st := rfl
  rw [heta]

/-- C5 witness: a response for id 7 while only id 5 is pending is dropped and
processing continues unchanged. -/
theorem c5_unknown_response_discarded_witness :
    Resolver.decode resolverStW5.pending
        (Section.u8 1 :: Section.u32 7 :: [Section.result true 3])
        = .ok (resolverStW5.pending, .dropResponse 7)
    ∧ Resolver.run resolverStW5
        (ReadEvent.frame (Section.u8 1 :: Section.u32 7 :: [Section.result true 3])
          :: [ReadEvent.eof])
        = Resolver.run resolverStW5 [ReadEvent.eof] :=
  c5_unknown_response_discarded resolverStW5 7 [Section.result true 3] [ReadEvent.eof]
    (by decide)

theorem mod64_mod32 (n : Nat) : n % 2 ^ 64 % 2 ^ 32 = n % 2 ^ 32 :=
  Nat.mod_mod_of_dvd n (by norm_num)

theorem structInv_stepIssue (st : MuxState) (name : String) (pv : PVal)
    (inv : StructInv st) : StructInv (stepIssue st name pv) := by
  obtain ⟨hnd, hlen, hpen, hid, hctr⟩ := inv
  rcases hdisp : pmLookup (st.counter % 2 ^ 32) st.pending with _ | jOld
  · refine ⟨?_, ?_, ?_, ?_, ?_⟩ <;> simp only [stepIssue, hdisp]
    · exact pmInsert_keys_nodup _ _ _ hnd
    · simp [hlen]
    · intro a j hlook
      rw [pmLookup_insert] at hlook
      by_cases ha : a = st.counter % 2 ^ 32
      · rw [if_pos ha] at hlook
        obtain rfl : st.handles.length = j := Option.some_inj.mp hlook
        subst ha
        refine ⟨List.getElem?_concat_length _ _, ?_⟩
        rw [← hlen]
        exact List.getElem?_concat_length _ _
      · rw [if_neg ha] at hlook
        obtain ⟨h1, h2⟩ := hpen a j hlook
        have hj : j < st.handles.length := (List.getElem?_eq_some.mp h1).1
        have hj' : j < st.oneshots.length := hlen ▸ hj
        rw [List.getElem?_append_left hj, List.getElem?_append_left hj']
        exact ⟨h1, h2⟩
    · intro j h hget
      rcases Nat.lt_trichotomy j st.handles.length with hj | hj | hj
      · rw [List.getElem?_append_left hj] at hget
        exact hid j h hget
      · subst hj
        rw [List.getElem?_concat_length] at hget
        obtain rfl : h = ⟨st.counter % 2 ^ 32, HStatus.live⟩ := by
          injection hget with hh
          exact hh.symm
        show st.counter % 2 ^ 32 = st.handles.length % 2 ^ 32
        rw [hctr, mod64_mod32]
      · rw [List.getElem?_eq_none_iff.mpr (by simp; omega)] at hget
        exact absurd hget (by simp)
    · rw [hctr]
      simp [Nat.mod_add_mod]
  · have hjOld := hpen _ jOld hdisp
    refine ⟨?_, ?_, ?_, ?_, ?_⟩ <;> simp only [stepIssue, hdisp]
    · exact pmInsert_keys_nodup _ _ _ hnd
    · simp [hlen]
    · intro a j hlook
      rw [pmLookup_insert] at hlook
      by_cases ha : a = st.counter % 2 ^ 32
      · rw [if_pos ha] at hlook
        obtain rfl : st.handles.length = j := Option.some_inj.mp hlook
        subst ha
        refine ⟨List.getElem?_concat_length _ _, ?_⟩
        have hsetlen : (st.oneshots.set jOld Oneshot.closed).length = st.handles.length := by
          simp [hlen]
        rw [← hsetlen]
        exact List.getElem?_concat_length _ _
      · rw [if_neg ha] at hlook
        obtain ⟨h1, h2⟩ := hpen a j hlook
        have hj : j < st.handles.length := (List.getElem?_eq_some.mp h1).1
        have hjne : jOld ≠ j := by
          intro he
          subst he
          rw [h1] at hjOld
          obtain ⟨hh, _⟩ := hjOld
          injection hh with hh'
          exact ha (congrArg Handle.hid hh')
        have hj' : j < (st.oneshots.set jOld Oneshot.closed).length := by
          simp [hlen, hj]
        rw [List.getElem?_append_left hj, List.getElem?_append_left hj',
          List.getElem?_set_ne hjne]
        exact ⟨h1, h2⟩
    · intro j h hget
      rcases Nat.lt_trichotomy j st.handles.length with hj | hj | hj
      · rw [List.getElem?_append_left hj] at hget
        exact hid j h hget
      · subst hj
        rw [List.getElem?_concat_length] at hget
        obtain rfl : h = ⟨st.counter % 2 ^ 32, HStatus.live⟩ := by
          injection hget with hh
          exact hh.symm
        show st.counter % 2 ^ 32 = st.handles.length % 2 ^ 32
        rw [hctr, mod64_mod32]
      · rw [List.getElem?_eq_none_iff.mpr (by simp; omega)] at hget
        exact absurd hget (by simp)
    · rw [hctr]
      simp [Nat.mod_add_mod]

theorem structInv_stepDeliver (st : MuxState) (m : MessageBuf)
    (inv : StructInv st) : StructInv (stepDeliver st m) := by
  obtain ⟨hnd, hlen, hpen, hid, hctr⟩ := inv
  rcases hdec : Resolver.decode st.pending m with e | ⟨p, eff⟩
  · simp only [stepDeliver, hdec]
    exact ⟨hnd, hlen, hpen, hid, hctr⟩
  · rcases decode_ok_inv _ _ _ _ hdec with ⟨rfl, hne⟩ | ⟨i, j, r, hm, hl, rfl, rfl⟩
    · cases eff with
      | request buf =>
        simp only [stepDeliver, hdec]
        exact ⟨hnd, hlen, hpen, hid, hctr⟩
      | fulfilled j r => exact absurd rfl (hne j r)
      | dropResponse i =>
        simp only [stepDeliver, hdec]
        exact ⟨hnd, hlen, hpen, hid, hctr⟩
    · simp only [stepDeliver, hdec]
      obtain ⟨hj1, _⟩ := hpen i j hl
      refine ⟨pmRemove_keys_nodup _ _ hnd, by simp [hlen], ?_, hid, hctr⟩
      intro a j' hlook
      rw [pmLookup_remove] at hlook
      by_cases ha : a = i
      · rw [if_pos ha] at hlook
        exact absurd hlook (by simp)
      · rw [if_neg ha] at hlook
        obtain ⟨g1, g2⟩ := hpen a j' hlook
        have hne' : j ≠ j' := by
          intro he
          subst he
          rw [g1] at hj1
          injection hj1 with hh
          exact ha (congrArg Handle.hid hh)
        rw [List.getElem?_set_ne hne']
        exact ⟨g1, g2⟩

theorem structInv_stepDrop (st : MuxState) (j : Nat)
    (inv : StructInv st) : StructInv (stepDrop st j) := by
  obtain ⟨hnd, hlen, hpen, hid, hctr⟩ := inv
  rcases hget : st.handles[j]? with _ | h
  · simp only [stepDrop, hget]
    exact ⟨hnd, hlen, hpen, hid, hctr⟩
  · by_cases hdr : h.status = HStatus.dropped
    · simp only [stepDrop, hget, if_pos hdr]
      exact ⟨hnd, hlen, hpen, hid, hctr⟩
    · have hidOk : ∀ (j' : Nat) (h' : Handle),
          (st.handles.set j ⟨h.hid, HStatus.dropped⟩)[j']? = some h' →
          h'.hid = j' % 2 ^ 32 := by
        intro j' h' hg
        by_cases he : j = j'
        · subst he
          rw [List.getElem?_set_self (List.getElem?_eq_some.mp hget).1] at hg
          injection hg with hh
          rw [← hh]
          exact hid j h hget
        · rw [List.getElem?_set_ne he] at hg
          exact hid j' h' hg
      rcases hrem : pmLookup h.hid st.pending with _ | jTx
      · simp only [stepDrop, hget, if_neg hdr, hrem]
        refine ⟨pmRemove_keys_nodup _ _ hnd, by simp [hlen], ?_, hidOk, by simp [hctr]⟩
        intro a j' hlook
        rw [pmLookup_remove] at hlook
        by_cases ha : a = h.hid
        · rw [if_pos ha] at hlook
          exact absurd hlook (by simp)
        · rw [if_neg ha] at hlook
          obtain ⟨g1, g2⟩ := hpen a j' hlook
          have hne' : j ≠ j' := by
            intro he
            subst he
            rw [hget] at g1
            injection g1 with hh
            exact ha (congrArg Handle.hid hh).symm
          rw [List.getElem?_set_ne hne']
          exact ⟨g1, g2⟩
      · obtain ⟨t1, _⟩ := hpen h.hid jTx hrem
        simp only [stepDrop, hget, if_neg hdr, hrem]
        refine ⟨pmRemove_keys_nodup _ _ hnd, by simp [hlen], ?_, hidOk, by simp [hctr]⟩
        intro a j' hlook
        rw [pmLookup_remove] at hlook
        by_cases ha : a = h.hid
        · rw [if_pos ha] at hlook
          exact absurd hlook (by simp)
        · rw [if_neg ha] at hlook
          obtain ⟨g1, g2⟩ := hpen a j' hlook
          have hne' : j ≠ j' := by
            intro he
            subst he
            rw [hget] at g1
            injection g1 with hh
            exact ha (congrArg Handle.hid hh).symm
          have hneTx : jTx ≠ j' := by
            intro he
            subst he
            rw [g1] at t1
            injection t1 with hh
            exact ha (congrArg Handle.hid hh)
          rw [List.getElem?_set_ne hne', List.getElem?_set_ne hneTx]
          exact ⟨g1, g2⟩

theorem structInv_stepPoll (st : MuxState) (j : Nat)
    (inv : StructInv st) : StructInv (stepPoll st j) := by
  obtain ⟨hnd, hlen, hpen, hid, hctr⟩ := inv
  rcases hget : st.handles[j]? with _ | ⟨hid0, st0⟩
  · simp only [stepPoll, hget]
    exact ⟨hnd, hlen, hpen, hid, hctr⟩
  · have hidOk : ∀ (s' : HStatus) (j' : Nat) (h' : Handle),
        (st.handles.set j ⟨hid0, s'⟩)[j']? = some h' → h'.hid = j' % 2 ^ 32 := by
      intro s' j' h' hg
      by_cases he : j = j'
      · subst he
        rw [List.getElem?_set_self (List.getElem?_eq_some.mp hget).1] at hg
        injection hg with hh
        rw [← hh]
        exact hid j ⟨hid0, st0⟩ hget
      · rw [List.getElem?_set_ne he] at hg
        exact hid j' h' hg
    cases st0 with
    | done r =>
      simp only [stepPoll, hget]
      exact ⟨hnd, hlen, hpen, hid, hctr⟩
    | dropped =>
      simp only [stepPoll, hget]
      exact ⟨hnd, hlen, hpen, hid, hctr⟩
    | live =>
      rcases hos : st.oneshots[j]? with _ | os
      · simp only [stepPoll, hget, hos]
        exact ⟨hnd, hlen, hpen, hid, hctr⟩
      · cases os with
        | waiting =>
          simp only [stepPoll, hget, hos]
          exact ⟨hnd, hlen, hpen, hid, hctr⟩
        | consumed =>
          simp only [stepPoll, hget, hos]
          exact ⟨hnd, hlen, hpen, hid, hctr⟩
        | filled m =>
          simp only [stepPoll, hget, hos]
          refine ⟨hnd, by simp [hlen], ?_, hidOk _, by simp [hctr]⟩
          intro a j' hlook
          obtain ⟨g1, g2⟩ := hpen a j' hlook
          have hne' : j ≠ j' := by
            intro he
            subst he
            rw [g2] at hos
            exact absurd (Option.some_inj.mp hos) (by simp)
          rw [List.getElem?_set_ne hne', List.getElem?_set_ne hne']
          exact ⟨g1, g2⟩
        | closed =>
          simp only [stepPoll, hget, hos]
          refine ⟨hnd, by simp [hlen], ?_, hidOk _, by simp [hctr]⟩
          intro a j' hlook
          obtain ⟨g1, g2⟩ := hpen a j' hlook
          have hne' : j ≠ j' := by
            intro he
            subst he
            rw [g2] at hos
            exact absurd (Option.some_inj.mp hos) (by simp)
          rw [List.getElem?_set_ne hne']
          exact ⟨g1, g2⟩

theorem pollDecode_respPayload (resp : Nat → Bool × Nat) (i : Nat) :
    pollDecode (respPayloadFrame resp i) = pollResFor resp i := by
  rcases hri : resp i with ⟨ok, v⟩
  cases ok <;>
    simp [pollDecode, respPayloadFrame, pollResFor, MessageBuf.popResult, hri]

theorem decInv_stepIssue (resp : Nat → Bool × Nat) (st : MuxState)
    (name : String) (pv : PVal) (sinv : StructInv st) (dinv : DecInv resp st) :
    DecInv resp (stepIssue st name pv) := by
  obtain ⟨hfill, hdone⟩ := dinv
  obtain ⟨hnd, hlen, hpen, hid, hctr⟩ := sinv
  have hdoneNew : ∀ (j : Nat) (h : Handle) (r : PollRes),
      (st.handles ++ [⟨st.counter % 2 ^ 32, HStatus.live⟩])[j]? = some h →
      h.status = HStatus.done r →
      r = PollRes.transportError ∨ r = pollResFor resp h.hid := by
    intro j h r hh hst
    rcases Nat.lt_trichotomy j st.handles.length with hj | hj | hj
    · rw [List.getElem?_append_left hj] at hh
      exact hdone j h r hh hst
    · subst hj
      rw [List.getElem?_concat_length] at hh
      injection hh with hh'
      rw [← hh'] at hst
      exact absurd hst (by simp)
    · rw [List.getElem?_eq_none_iff.mpr (by simp; omega)] at hh
      exact absurd hh (by simp)
  rcases hdisp : pmLookup (st.counter % 2 ^ 32) st.pending with _ | jOld
  · refine ⟨?_, ?_⟩ <;> simp only [stepIssue, hdisp]
    · intro j m hos
      rcases Nat.lt_trichotomy j st.oneshots.length with hj | hj | hj
      · rw [List.getElem?_append_left hj] at hos
        obtain ⟨h, hh, hm⟩ := hfill j m hos
        have hjh : j < st.handles.length := (List.getElem?_eq_some.mp hh).1
        exact ⟨h, by rw [List.getElem?_append_left hjh]; exact hh, hm⟩
      · subst hj
        rw [List.getElem?_concat_length] at hos
        exact absurd (Option.some_inj.mp hos) (by simp)
      · rw [List.getElem?_eq_none_iff.mpr (by simp; omega)] at hos
        exact absurd hos (by simp)
    · exact hdoneNew
  · obtain ⟨hjo1, hjo2⟩ := hpen _ jOld hdisp
    have hjOldLt : jOld < st.oneshots.length := (List.getElem?_eq_some.mp hjo2).1
    refine ⟨?_, ?_⟩ <;> simp only [stepIssue, hdisp]
    · intro j m hos
      rcases Nat.lt_trichotomy j st.oneshots.length with hj | hj | hj
      · have hj' : j < (st.oneshots.set jOld Oneshot.closed).length := by simp [hj]
        rw [List.getElem?_append_left hj'] at hos
        by_cases he : jOld = j
        · subst he
          rw [List.getElem?_set_self hjOldLt] at hos
          exact absurd (Option.some_inj.mp hos) (by simp)
        · rw [List.getElem?_set_ne he] at hos
          obtain ⟨h, hh, hm⟩ := hfill j m hos
          have hjh : j < st.handles.length := (List.getElem?_eq_some.mp hh).1
          exact ⟨h, by rw [List.getElem?_append_left hjh]; exact hh, hm⟩
      · have hlen' : (st.oneshots.set jOld Oneshot.closed).length = j := by simp [hj]
        rw [← hlen', List.getElem?_concat_length] at hos
        exact absurd (Option.some_inj.mp hos) (by simp)
      · rw [List.getElem?_eq_none_iff.mpr (by simp; omega)] at hos
        exact absurd hos (by simp)
    · exact hdoneNew

theorem decInv_stepDeliver (resp : Nat → Bool × Nat) (st : MuxState)
    (m : MessageBuf) (sinv : StructInv st) (dinv : DecInv resp st)
    (hconf : ConformingFrame resp m) : DecInv resp (stepDeliver st m) := by
  obtain ⟨hfill, hdone⟩ := dinv
  obtain ⟨hnd, hlen, hpen, hid, hctr⟩ := sinv
  rcases hdec : Resolver.decode st.pending m with e | ⟨p, eff⟩
  · simp only [stepDeliver, hdec]
    exact ⟨hfill, hdone⟩
  · rcases decode_ok_inv _ _ _ _ hdec with ⟨rfl, hne⟩ | ⟨i, j, r, hm, hl, rfl, rfl⟩
    · cases eff with
      | request buf =>
        simp only [stepDeliver, hdec]
        exact ⟨hfill, hdone⟩
      | fulfilled j r => exact absurd rfl (hne j r)
      | dropResponse i =>
        simp only [stepDeliver, hdec]
        exact ⟨hfill, hdone⟩
    · simp only [stepDeliver, hdec]
      have hr : r = respPayloadFrame resp i := hconf i r hm
      obtain ⟨hj1, hj2⟩ := hpen i j hl
      have hjlt : j < st.oneshots.length := (List.getElem?_eq_some.mp hj2).1
      refine ⟨?_, hdone⟩
      intro j' m' hos
      by_cases he : j = j'
      · subst he
        rw [List.getElem?_set_self hjlt] at hos
        have : Oneshot.filled r = Oneshot.filled m' := Option.some_inj.mp hos
        injection this with hmr
        exact ⟨⟨i, HStatus.live⟩, hj1, by rw [← hmr, hr]⟩
      · rw [List.getElem?_set_ne he] at hos
        exact hfill j' m' hos

theorem decInv_stepDrop (resp : Nat → Bool × Nat) (st : MuxState) (j : Nat)
    (sinv : StructInv st) (dinv : DecInv resp st) : DecInv resp (stepDrop st j) := by
  obtain ⟨hfill, hdone⟩ := dinv
  obtain ⟨hnd, hlen, hpen, hid, hctr⟩ := sinv
  rcases hget : st.handles[j]? with _ | h
  · simp only [stepDrop, hget]
    exact ⟨hfill, hdone⟩
  · have hjlt : j < st.handles.length := (List.getElem?_eq_some.mp hget).1
    by_cases hdr : h.status = HStatus.dropped
    · simp only [stepDrop, hget, if_pos hdr]
      exact ⟨hfill, hdone⟩
    · have hfillNew : ∀ (oneshots' : List Oneshot),
          (∀ (j' : Nat) (m : MessageBuf), oneshots'[j']? = some (Oneshot.filled m) →
            st.oneshots[j']? = some (Oneshot.filled m)) →
          ∀ (j' : Nat) (m : MessageBuf), oneshots'[j']? = some (Oneshot.filled m) →
          ∃ h' : Handle, (st.handles.set j ⟨h.hid, HStatus.dropped⟩)[j']? = some h'
            ∧ m = respPayloadFrame resp h'.hid := by
        intro os' hsub j' m hos
        obtain ⟨h', hh', hm'⟩ := hfill j' m (hsub j' m hos)
        by_cases he : j = j'
        · subst he
          rw [hget] at hh'
          obtain rfl : h = h' := Option.some_inj.mp hh'
          exact ⟨⟨h.hid, HStatus.dropped⟩, by rw [List.getElem?_set_self hjlt], hm'⟩
        · exact ⟨h', by rw [List.getElem?_set_ne he]; exact hh', hm'⟩
      have hdoneNew : ∀ (j' : Nat) (h' : Handle) (r : PollRes),
          (st.handles.set j ⟨h.hid, HStatus.dropped⟩)[j']? = some h' →
          h'.status = HStatus.done r →
          r = PollRes.transportError ∨ r = pollResFor resp h'.hid := by
        intro j' h' r hh' hst
        by_cases he : j = j'
        · subst he
          rw [List.getElem?_set_self hjlt] at hh'
          obtain rfl : (⟨h.hid, HStatus.dropped⟩ : Handle) = h' := Option.some_inj.mp hh'
          exact absurd hst (by simp)
        · rw [List.getElem?_set_ne he] at hh'
          exact hdone j' h' r hh' hst
      rcases hrem : pmLookup h.hid st.pending with _ | jTx
      · simp only [stepDrop, hget, if_neg hdr, hrem]
        exact ⟨hfillNew st.oneshots (fun _ _ hx => hx), hdoneNew⟩
      · simp only [stepDrop, hget, if_neg hdr, hrem]
        refine ⟨hfillNew (st.oneshots.set jTx Oneshot.closed) ?_, hdoneNew⟩
        intro j' m hos
        by_cases he : jTx = j'
        · subst he
          obtain ⟨_, hjT2⟩ := hpen h.hid jTx hrem
          have hTlt : jTx < st.oneshots.length := (List.getElem?_eq_some.mp hjT2).1
          rw [List.getElem?_set_self hTlt] at hos
          exact absurd (Option.some_inj.mp hos) (by simp)
        · rw [List.getElem?_set_ne he] at hos
          exact hos

theorem decInv_stepPoll (resp : Nat → Bool × Nat) (st : MuxState) (j : Nat)
    (sinv : StructInv st) (dinv : DecInv resp st) : DecInv resp (stepPoll st j) := by
  obtain ⟨hfill, hdone⟩ := dinv
  obtain ⟨hnd, hlen, hpen, hid, hctr⟩ := sinv
  rcases hget : st.handles[j]? with _ | ⟨hid0, st0⟩
  · simp only [stepPoll, hget]
    exact ⟨hfill, hdone⟩
  · have hjlt : j < st.handles.length := (List.getElem?_eq_some.mp hget).1
    cases st0 with
    | done r =>
      simp only [stepPoll, hget]
      exact ⟨hfill, hdone⟩
    | dropped =>
      simp only [stepPoll, hget]
      exact ⟨hfill, hdone⟩
    | live =>
      rcases hos : st.oneshots[j]? with _ | os
      · simp only [stepPoll, hget, hos]
        exact ⟨hfill, hdone⟩
      · cases os with
        | waiting =>
          simp only [stepPoll, hget, hos]
          exact ⟨hfill, hdone⟩
        | consumed =>
          simp only [stepPoll, hget, hos]
          exact ⟨hfill, hdone⟩
        | filled m =>
          have hjlt' : j < st.oneshots.length := (List.getElem?_eq_some.mp hos).1
          obtain ⟨h', hh', hm'⟩ := hfill j m hos
          rw [hget] at hh'
          obtain rfl : (⟨hid0, HStatus.live⟩ : Handle) = h' := Option.some_inj.mp hh'
          simp only [stepPoll, hget, hos]
          constructor
          · intro j' m' hos'
            by_cases he : j = j'
            · subst he
              rw [List.getElem?_set_self hjlt'] at hos'
              exact absurd (Option.some_inj.mp hos') (by simp)
            · rw [List.getElem?_set_ne he] at hos'
              obtain ⟨h2, hh2, hm2⟩ := hfill j' m' hos'
              exact ⟨h2, by rw [List.getElem?_set_ne he]; exact hh2, hm2⟩
          · intro j' h2 r hh2 hst2
            by_cases he : j = j'
            · subst he
              rw [List.getElem?_set_self hjlt] at hh2
              obtain rfl : (⟨hid0, HStatus.done (pollDecode m)⟩ : Handle) = h2 :=
                Option.some_inj.mp hh2
              have : r = pollDecode m := by
                injection hst2 with hr
                exact hr.symm
              subst this
              right
              show pollDecode m = pollResFor resp hid0
              rw [hm']
              exact pollDecode_respPayload resp hid0
            · rw [List.getElem?_set_ne he] at hh2
              exact hdone j' h2 r hh2 hst2
        | closed =>
          simp only [stepPoll, hget, hos]
          constructor
          · intro j' m' hos'
            obtain ⟨h2, hh2, hm2⟩ := hfill j' m' hos'
            by_cases he : j = j'
            · subst he
              rw [hos] at hos'
              exact absurd (Option.some_inj.mp hos') (by simp)
            · exact ⟨h2, by rw [List.getElem?_set_ne he]; exact hh2, hm2⟩
          · intro j' h2 r hh2 hst2
            by_cases he : j = j'
            · subst he
              rw [List.getElem?_set_self hjlt] at hh2
              obtain rfl : (⟨hid0, HStatus.done PollRes.transportError⟩ : Handle) = h2 :=
                Option.some_inj.mp hh2
              left
              injection hst2 with hr
              exact hr.symm
            · rw [List.getElem?_set_ne he] at hh2
              exact hdone j' h2 r hh2 hst2

theorem structInv_init : StructInv MuxState.init := by
  refine ⟨by simp [MuxState.init], rfl, ?_, ?_, by simp [MuxState.init]⟩
  · intro i j h
    simp [MuxState.init, pmLookup] at h
  · intro j h hg
    simp [MuxState.init] at hg

theorem decInv_init (resp : Nat → Bool × Nat) : DecInv resp MuxState.init := by
  constructor
  · intro j m h
    simp [MuxState.init] at h
  · intro j h r hg _
    simp [MuxState.init] at hg

theorem structInv_step (st : MuxState) (op : Op) (inv : StructInv st) :
    StructInv (step st op) := by
  cases op with
  | issue name pv => exact structInv_stepIssue st name pv inv
  | deliver m => exact structInv_stepDeliver st m inv
  | dropResp j => exact structInv_stepDrop st j inv
  | poll j => exact structInv_stepPoll st j inv

theorem structInv_foldl (tr : List Op) :
    ∀ st : MuxState, StructInv st → StructInv (tr.foldl step st) := by
  induction tr with
  | nil => intro st inv; exact inv
  | cons op tr ih => intro st inv; exact ih (step st op) (structInv_step st op inv)

theorem inv_foldl (resp : Nat → Bool × Nat) (tr : List Op) :
    ∀ st : MuxState, StructInv st → DecInv resp st →
      (∀ m, Op.deliver m ∈ tr → ConformingFrame resp m) →
      StructInv (tr.foldl step st) ∧ DecInv resp (tr.foldl step st) := by
  induction tr with
  | nil => intro st sinv dinv _; exact ⟨sinv, dinv⟩
  | cons op tr ih =>
    intro st sinv dinv hconf
    have hstep : StructInv (step st op) ∧ DecInv resp (step st op) := by
      cases op with
      | issue name pv =>
        exact ⟨structInv_stepIssue st name pv sinv, decInv_stepIssue resp st name pv sinv dinv⟩
      | deliver m =>
        exact ⟨structInv_stepDeliver st m sinv,
          decInv_stepDeliver resp st m sinv dinv (hconf m (by simp))⟩
      | dropResp j =>
        exact ⟨structInv_stepDrop st j sinv, decInv_stepDrop resp st j sinv dinv⟩
      | poll j =>
        exact ⟨structInv_stepPoll st j sinv, decInv_stepPoll resp st j sinv dinv⟩
    exact ih (step st op) hstep.1 hstep.2 (fun m hm => hconf m (by simp [hm]))

theorem handlesLen_step (st : MuxState) (op : Op) :
    st.handles.length ≤ (step st op).handles.length ∧
      (step st op).handles.length ≤ st.handles.length + 1 := by
  cases op with
  | issue name pv => simp [step, stepIssue]
  | deliver m =>
    rcases hdec : Resolver.decode st.pending m with e | ⟨p, eff⟩
    · simp [step, stepDeliver, hdec]
    · cases eff <;> simp [step, stepDeliver, hdec]
  | dropResp j =>
    rcases hget : st.handles[j]? with _ | h
    · simp [step, stepDrop, hget]
    · by_cases hdr : h.status = HStatus.dropped
      · simp [step, stepDrop, hget, hdr]
      · rcases hrem : pmLookup h.hid st.pending with _ | jTx <;>
          simp [step, stepDrop, hget, hdr, hrem]
  | poll j =>
    rcases hget : st.handles[j]? with _ | ⟨hid0, st0⟩
    · simp [step, stepPoll, hget]
    · cases st0 with
      | live =>
        rcases hos : st.oneshots[j]? with _ | os
        · simp [step, stepPoll, hget, hos]
        · cases os <;> simp [step, stepPoll, hget, hos]
      | done r => simp [step, stepPoll, hget]
      | dropped => simp [step, stepPoll, hget]

theorem ghost_step_nonissue (st : MuxState) (op : Op)
    (hop : ∀ name pv, op ≠ Op.issue name pv) :
    (step st op).ghostReplaced = st.ghostReplaced ∧
      (step st op).handles.length = st.handles.length := by
  cases op with
  | issue name pv => exact absurd rfl (hop name pv)
  | deliver m =>
    rcases hdec : Resolver.decode st.pending m with e | ⟨p, eff⟩
    · simp [step, stepDeliver, hdec]
    · cases eff <;> simp [step, stepDeliver, hdec]
  | dropResp j =>
    rcases hget : st.handles[j]? with _ | h
    · simp [step, stepDrop, hget]
    · by_cases hdr : h.status = HStatus.dropped
      · simp [step, stepDrop, hget, hdr]
      · rcases hrem : pmLookup h.hid st.pending with _ | jTx <;>
          simp [step, stepDrop, hget, hdr, hrem]
  | poll j =>
    rcases hget : st.handles[j]? with _ | ⟨hid0, st0⟩
    · simp [step, stepPoll, hget]
    · cases st0 with
      | live =>
        rcases hos : st.oneshots[j]? with _ | os
        · simp [step, stepPoll, hget, hos]
        · cases os <;> simp [step, stepPoll, hget, hos]
      | done r => simp [step, stepPoll, hget]
      | dropped => simp [step, stepPoll, hget]

/-- An `Outgoing::request` issued while fewer than `2^32` requests exist does
not displace any pending entry: its truncated id is still fresh. -/
theorem ghost_stepIssue (st : MuxState) (name : String) (pv : PVal)
    (inv : StructInv st) (hlt : st.handles.length < 2 ^ 32) :
    (stepIssue st name pv).ghostReplaced = st.ghostReplaced ∧
      (stepIssue st name pv).handles.length = st.handles.length + 1 := by
  obtain ⟨hnd, hlen, hpen, hid, hctr⟩ := inv
  have hidv : st.counter % 2 ^ 32 = st.handles.length := by
    rw [hctr, mod64_mod32]
    exact Nat.mod_eq_of_lt hlt
  have hdisp : pmLookup (st.counter % 2 ^ 32) st.pending = none := by
    rcases hd : pmLookup (st.counter % 2 ^ 32) st.pending with _ | jOld
    · rfl
    · obtain ⟨h1, _⟩ := hpen _ jOld hd
      have hjlt : jOld < st.handles.length := (List.getElem?_eq_some.mp h1).1
      have : (⟨st.counter % 2 ^ 32, HStatus.live⟩ : Handle).hid = jOld % 2 ^ 32 :=
        hid jOld _ h1
      simp only at this
      rw [hidv, Nat.mod_eq_of_lt (by omega)] at this
      omega
  constructor
  · show st.ghostReplaced
        + (if (pmLookup (st.counter % 2 ^ 32) st.pending).isSome then 1 else 0)
      = st.ghostReplaced
    rw [hdisp]
    rfl
  · show (st.handles ++ [(⟨st.counter % 2 ^ 32, HStatus.live⟩ : Handle)]).length
      = st.handles.length + 1
    simp

theorem ghost_foldl (tr : List Op) :
    ∀ st : MuxState, StructInv st → st.handles.length + issueCount tr ≤ 2 ^ 32 →
      (tr.foldl step st).ghostReplaced = st.ghostReplaced := by
  induction tr with
  | nil => intro st _ _; rfl
  | cons op tr ih =>
    intro st sinv hbound
    cases op with
    | issue name pv =>
      have hcnt : issueCount (Op.issue name pv :: tr) = issueCount tr + 1 := by
        simp [issueCount, List.countP_cons]
      have hlt : st.handles.length < 2 ^ 32 := by omega
      obtain ⟨hg, hl⟩ := ghost_stepIssue st name pv sinv hlt
      have := ih (step st (Op.issue name pv))
        (structInv_step st _ sinv)
        (by simp only [step]; omega)
      exact this.trans hg
    | deliver m =>
      obtain ⟨hg, hl⟩ := ghost_step_nonissue st (Op.deliver m) (by intro a b h; cases h)
      have hcnt : issueCount (Op.deliver m :: tr) = issueCount tr := by
        simp [issueCount, List.countP_cons]
      have := ih (step st (Op.deliver m)) (structInv_step st _ sinv) (by omega)
      exact this.trans hg
    | dropResp j =>
      obtain ⟨hg, hl⟩ := ghost_step_nonissue st (Op.dropResp j) (by intro a b h; cases h)
      have hcnt : issueCount (Op.dropResp j :: tr) = issueCount tr := by
        simp [issueCount, List.countP_cons]
      have := ih (step st (Op.dropResp j)) (structInv_step st _ sinv) (by omega)
      exact this.trans hg
    | poll j =>
      obtain ⟨hg, hl⟩ := ghost_step_nonissue st (Op.poll j) (by intro a b h; cases h)
      have hcnt : issueCount (Op.poll j :: tr) = issueCount tr := by
        simp [issueCount, List.countP_cons]
      have := ih (step st (Op.poll j)) (structInv_step st _ sinv) (by omega)
      exact this.trans hg

/-- Closed form of the state reached by `n` requests issued back to back
(nothing delivered, dropped or polled), for `n` up to the 32-bit id space:
the counter equals `n`, `n` handles exist, no pending entry was ever
displaced, and the entry for id `i` still points at handle `i`. -/
theorem pureIssue_state (n : Nat) (hn : n ≤ 2 ^ 32) :
    (applyTrace (List.replicate n (Op.issue "P" (PVal.raw 0)))).counter = n
    ∧ (applyTrace (List.replicate n (Op.issue "P" (PVal.raw 0)))).handles.length = n
    ∧ (applyTrace (List.replicate n (Op.issue "P" (PVal.raw 0)))).ghostReplaced = 0
    ∧ ∀ i, pmLookup i (applyTrace (List.replicate n (Op.issue "P" (PVal.raw 0)))).pending
        = if i < n then some i else none := by
  induction n with
  | zero =>
    refine ⟨rfl, rfl, rfl, ?_⟩
    intro i
    simp [applyTrace, MuxState.init, pmLookup]
  | succ n ih =>
    obtain ⟨hc, hl, hg, hlook⟩ := ih (by omega)
    have hstep : applyTrace (List.replicate (n + 1) (Op.issue "P" (PVal.raw 0)))
        = stepIssue (applyTrace (List.replicate n (Op.issue "P" (PVal.raw 0))))
            "P" (PVal.raw 0) := by
      rw [List.replicate_succ', applyTrace, List.foldl_concat]
      rfl
    set S := applyTrace (List.replicate n (Op.issue "P" (PVal.raw 0))) with hS
    have hid : S.counter % 2 ^ 32 = n := by
      rw [hc]
      exact Nat.mod_eq_of_lt (by omega)
    have hdisp : pmLookup (S.counter % 2 ^ 32) S.pending = none := by
      rw [hid, hlook n]
      simp
    rw [hstep]
    refine ⟨?_, ?_, ?_, ?_⟩
    · show (S.counter + 1) % 2 ^ 64 = n + 1
      rw [hc]
      exact Nat.mod_eq_of_lt (by omega)
    · show (S.handles ++ [(⟨S.counter % 2 ^ 32, HStatus.live⟩ : Handle)]).length = n + 1
      simp [hl]
    · show S.ghostReplaced
          + (if (pmLookup (S.counter % 2 ^ 32) S.pending).isSome then 1 else 0) = 0
      rw [hdisp, hg]
      rfl
    · intro i
      show pmLookup i (pmInsert (S.counter % 2 ^ 32) S.handles.length S.pending)
        = if i < n + 1 then some i else none
      rw [pmLookup_insert, hid, hl, hlook i]
      by_cases hi : i = n
      · subst hi
        simp
      · rw [if_neg hi]
        by_cases hlt : i < n
        · rw [if_pos hlt, if_pos (by omega)]
        · rw [if_neg hlt, if_neg (by omega)]

/-- C2 counterexample: a trace of `2^32 + 1` requests issued on one
multiplexer with none delivered, dropped or polled.  After the first issue
the pending table maps id 0 to handle 0; after the last issue (whose
truncated id wraps around to 0) that entry is gone — replaced by
`HashMap::insert` with an entry pointing at handle `2^32` — although the
trace contains no response delivery and no `Response::drop`, so the entry
for handle 0 was removed by neither of the two removal paths the claim
permits. -/
theorem c2_counterexample :
    pmLookup 0 (applyTrace (List.replicate 1 (Op.issue "P" (PVal.raw 0)))).pending = some 0
    ∧ pmLookup 0 (applyTrace (List.replicate (2 ^ 32 + 1) (Op.issue "P" (PVal.raw 0)))).pending
        = some (2 ^ 32)
    ∧ (applyTrace (List.replicate (2 ^ 32 + 1) (Op.issue "P" (PVal.raw 0)))).ghostReplaced = 1
    ∧ ∀ op ∈ List.replicate (2 ^ 32 + 1) (Op.issue "P" (PVal.raw 0)),
        (∀ m, op ≠ Op.deliver m) ∧ (∀ j, op ≠ Op.dropResp j) := by
  obtain ⟨hc, hl, hg, hlook⟩ := pureIssue_state (2 ^ 32) le_rfl
  have hstep : applyTrace (List.replicate (2 ^ 32 + 1) (Op.issue "P" (PVal.raw 0)))
      = stepIssue (applyTrace (List.replicate (2 ^ 32) (Op.issue "P" (PVal.raw 0))))
          "P" (PVal.raw 0) := by
    rw [List.replicate_succ', applyTrace, List.foldl_concat]
    rfl
  set S := applyTrace (List.replicate (2 ^ 32) (Op.issue "P" (PVal.raw 0))) with hS
  have hid : S.counter % 2 ^ 32 = 0 := by
    rw [hc]
    simp
  have hdisp : pmLookup (S.counter % 2 ^ 32) S.pending = some 0 := by
    rw [hid, hlook 0]
    simp
  refine ⟨?_, ?_, ?_, ?_⟩
  · obtain ⟨_, _, _, hlook1⟩ := pureIssue_state 1 (by norm_num)
    rw [hlook1 0]
    simp
  · rw [hstep]
    show pmLookup 0 (pmInsert (S.counter % 2 ^ 32) S.handles.length S.pending)
      = some (2 ^ 32)
    rw [pmLookup_insert, hid, hl]
    simp
  · rw [hstep]
    show S.ghostReplaced
        + (if (pmLookup (S.counter % 2 ^ 32) S.pending).isSome then 1 else 0) = 1
    rw [hdisp, hg]
    rfl
  · intro op hop
    rw [List.eq_of_mem_replicate hop]
    exact ⟨fun m h => Op.noConfusion h, fun j h => Op.noConfusion h⟩

/-- C1: for any interleaving of concurrent requests, deliveries, drops and
polls on one multiplexer, against a peer whose single-shot responder answers
request id `i` with `resp i`, every `Response` handle that has resolved
resolved either to a transport error or to exactly the payload the peer
produced for that handle's own request id, decoded as a success or as an
application error — never to the payload of a different request, regardless
of delivery order. -/
theorem c1_response_correlation (resp : Nat → Bool × Nat) (tr : List Op)
    (hconf : ∀ m, Op.deliver m ∈ tr → ConformingFrame resp m)
    (j : Nat) (h : Handle) (r : PollRes)
    (hget : (applyTrace tr).handles[j]? = some h)
    (hdone : h.status = HStatus.done r) :
    r = PollRes.transportError ∨ r = pollResFor resp h.hid := by
  obtain ⟨_, dinv⟩ :=
    inv_foldl resp tr MuxState.init structInv_init (decInv_init resp) hconf
  exact dinv.doneOk j h r hget hdone

/-- C1 witness: issuing `Ping`, delivering the peer's response for id 0 and
polling resolves handle 0 to exactly the peer's payload for id 0. -/
theorem c1_response_correlation_witness :
    (applyTrace c1TrW).handles[0]? = some ⟨0, HStatus.done (PollRes.success 100)⟩
    ∧ (PollRes.success 100 = PollRes.transportError
        ∨ PollRes.success 100 = pollResFor c1RespW 0) :=
  ⟨by decide,
   c1_response_correlation c1RespW c1TrW
     (by
       intro m hm i rest heq
       have hm' : m = [Section.u8 1, Section.u32 0, Section.result true 100] := by
         simp [c1TrW] at hm
         exact hm
       subst hm'
       obtain ⟨hi, hrest⟩ : 0 = i ∧ [Section.result true 100] = rest := by
         simpa using heq
       subst hi
       rw [← hrest]
       rfl)
     0 ⟨0, HStatus.done (PollRes.success 100)⟩ (PollRes.success 100) (by decide) rfl⟩

/-- C2 (amended): the pending table always holds at most one entry per
request id, and in the body of `Outgoing::request` the `(id, tx)` insert
strictly precedes enqueueing the frame on the outbound sender; provided the
32-bit id counter has not wrapped around (at most `2^32` requests issued),
no entry is ever displaced by an insert reusing its id — so every entry is
removed exactly once, by the Resolver on the matching response or by
`Response::drop` — and every pending entry still points at a live `Response`
handle with a waiting oneshot, so no entry outlives its handle and its
matching inbound response. -/
theorem c2_pending_table_discipline (tr : List Op)
    (hwrap : issueCount tr ≤ 2 ^ 32) :
    ((applyTrace tr).pending.map Prod.fst).Nodup
    ∧ (applyTrace tr).ghostReplaced = 0
    ∧ (∀ i j, pmLookup i (applyTrace tr).pending = some j →
        (applyTrace tr).handles[j]? = some ⟨i, HStatus.live⟩
        ∧ (applyTrace tr).oneshots[j]? = some Oneshot.waiting)
    ∧ requestProgramOrder.indexOf ReqAction.insertPending
        < requestProgramOrder.indexOf ReqAction.sendFrame := by
  have sinv := structInv_foldl tr MuxState.init structInv_init
  refine ⟨sinv.keysNodup, ?_, sinv.pendingOk, by decide⟩
  have h0 : MuxState.init.handles.length + issueCount tr ≤ 2 ^ 32 := by
    simpa [MuxState.init] using hwrap
  simpa [MuxState.init] using ghost_foldl tr MuxState.init structInv_init h0

/-- C2 witness: a concrete interleaving with two requests, one response
delivery, a poll and a drop satisfies the pending-table discipline. -/
theorem c2_pending_table_discipline_witness :
    ((applyTrace c2TrW).pending.map Prod.fst).Nodup
    ∧ (applyTrace c2TrW).ghostReplaced = 0
    ∧ (∀ i j, pmLookup i (applyTrace c2TrW).pending = some j →
        (applyTrace c2TrW).handles[j]? = some ⟨i, HStatus.live⟩
        ∧ (applyTrace c2TrW).oneshots[j]? = some Oneshot.waiting)
    ∧ requestProgramOrder.indexOf ReqAction.insertPending
        < requestProgramOrder.indexOf ReqAction.sendFrame :=
  c2_pending_table_discipline c2TrW (by decide)

/-- C9: the request ids of one multiplexer come from a single shared counter
that starts at 0 and is atomically fetched-and-incremented on every
`Outgoing::request` (wrapping as an `AtomicUsize`), and the id handed to the
`(j+1)`-th request overall is the fetched value truncated modulo `2^32`,
namely `j mod 2^32`. -/
theorem c9_request_id_counter (tr : List Op) (j : Nat) (h : Handle)
    (hget : (applyTrace tr).handles[j]? = some h) :
    MuxState.init.counter = 0
    ∧ h.hid = j % 2 ^ 32
    ∧ (applyTrace tr).counter = (applyTrace tr).handles.length % 2 ^ 64 := by
  have sinv := structInv_foldl tr MuxState.init structInv_init
  exact ⟨rfl, sinv.idOk j h hget, sinv.counterOk⟩

/-- C9 witness: after three requests the third handle carries id `2`. -/
theorem c9_request_id_counter_witness :
    MuxState.init.counter = 0
    ∧ (⟨2, HStatus.live⟩ : Handle).hid = 2 % 2 ^ 32
    ∧ (applyTrace (List.replicate 3 (Op.issue "P" (PVal.raw 0)))).counter
        = (applyTrace (List.replicate 3 (Op.issue "P" (PVal.raw 0)))).handles.length % 2 ^ 64 :=
  c9_request_id_counter (List.replicate 3 (Op.issue "P" (PVal.raw 0))) 2
    ⟨2, HStatus.live⟩ (by decide)

/-- C3: the frame built and sent by `Outgoing::request` consists, in order,
of the kind byte 0 (`Type::Request`), the id, the name `R::NAME` and the
serialized payload; the frame built and sent by `Responder::respond`
consists, in order, of the kind byte 1 (`Type::Response`), the captured
request id and the result serialized as an Ok/Err tagged union; an issue
step enqueues exactly its request frame on the channel sender, and `respond`
enqueues exactly its response frame on the captured origin sender. -/
theorem c3_frame_layout (id : Nat) (name : String) (p : PVal) (ok : Bool)
    (v : Nat) (st : MuxState) (log : List MessageBuf) :
    requestFrame id name p
        = [Section.u8 0, Section.u32 id, Section.str name, Section.payload p]
    ∧ responseFrame id ok v
        = [Section.u8 1, Section.u32 id, Section.result ok v]
    ∧ (stepIssue st name p).sentLog
        = st.sentLog ++ [requestFrame (st.counter % 2 ^ 32) name p]
    ∧ Responder.respond ⟨id⟩ ok v log = log ++ [responseFrame id ok v] :=
  ⟨rfl, rfl, rfl, rfl⟩

theorem btreeInsert_mem_self (x : Nat) (l : List Nat) : x ∈ btreeInsert x l := by
  by_cases hx : x ∈ l
  · rw [btreeInsert, if_pos hx]
    exact hx
  · rw [btreeInsert, if_neg hx]
    simp

theorem btreeInsert_nodup (x : Nat) (l : List Nat) (h : l.Nodup) :
    (btreeInsert x l).Nodup := by
  by_cases hx : x ∈ l
  · rw [btreeInsert, if_pos hx]
    exact h
  · rw [btreeInsert, if_neg hx]
    simp [List.nodup_append, h, hx]

/-- C6: `Dispatch::dispatch` on a `RequestBuf` whose name is none of
`Submission`, `AddWorkerGroup`, `AddExecutor` returns the fatal
`Stop::Fail(InvalidData "invalid request")` error, and the connection's
consumption of its `Incoming` stream stops there, leaving every later
request of this connection unprocessed (only this connection is torn down);
each of the three recognized names decodes the payload as its associated
request type and dispatches to the matching handler. -/
theorem c6_dispatch_routing (addExec : Nat → Nat) (d : DispatchState)
    (i : Nat) (nm : String) (m : MessageBuf) (s q g e : Nat) :
    (nm ≠ "Submission" → nm ≠ "AddWorkerGroup" → nm ≠ "AddExecutor" →
      Dispatch.dispatch addExec d ⟨i, nm, m⟩
          = .error (.fail .invalidRequest)
      ∧ ∀ rest, Dispatch.consume addExec d (⟨i, nm, m⟩ :: rest)
          = (d, [], some (.fail .invalidRequest)))
    ∧ Dispatch.dispatch addExec d
          ⟨i, "Submission", Section.payload (PVal.submission s) :: m⟩
        = .ok (d, .spawnSubmission s)
    ∧ Dispatch.dispatch addExec d
          ⟨i, "AddWorkerGroup", Section.payload (PVal.addWorkerGroup q g) :: m⟩
        = .ok (d, .spawnAddWorkerGroup q g)
    ∧ Dispatch.dispatch addExec d
          ⟨i, "AddExecutor", Section.payload (PVal.addExecutor e) :: m⟩
        = .ok ({ d with associated := btreeInsert (addExec e) d.associated },
               .respondAddExecutor (addExec e)) := by
  refine ⟨?_, rfl, rfl, rfl⟩
  intro h1 h2 h3
  have hd : Dispatch.dispatch addExec d ⟨i, nm, m⟩
      = .error (.fail .invalidRequest) := by
    simp only [Dispatch.dispatch]
  refine ⟨hd, ?_⟩
  intro rest
  simp only [Dispatch.consume, hd]

/-- C6 witness: an unrecognized name tears the consumption loop down with
the invalid-request error, leaving later requests unprocessed. -/
theorem c6_dispatch_routing_witness :
    Dispatch.dispatch (fun e => e + 10) ⟨[]⟩ ⟨0, "Bogus", []⟩
        = .error (.fail .invalidRequest)
    ∧ Dispatch.consume (fun e => e + 10) ⟨[]⟩
          [⟨0, "Bogus", []⟩, ⟨1, "Submission", [Section.payload (PVal.submission 3)]⟩]
        = (⟨[]⟩, [], some (.fail .invalidRequest)) := by
  have h := (c6_dispatch_routing (fun e => e + 10) ⟨[]⟩ 0 "Bogus" [] 0 0 0 0).1
      (by decide) (by decide) (by decide)
  exact ⟨h.1, h.2 [⟨1, "Submission", [Section.payload (PVal.submission 3)]⟩]⟩

/-- C7: when a `Dispatch` is dropped, the coordinator's `remove_executor(id)`
release hook is invoked exactly once for every `Executor(id)` token in its
associated set (and never for an id that is not in the set); the token is the
one inserted when the `AddExecutor` arm was handled on this connection, and
handling `AddExecutor` keeps the set duplicate-free, so a token can never
trigger two release calls. -/
theorem c7_executor_release_once (d : DispatchState) (hnd : d.associated.Nodup)
    (id : Nat) (addExec : Nat → Nat) (i e : Nat) (m : MessageBuf) :
    (Dispatch.dropCalls d).count (CoordCall.removeExecutor id)
        = (if id ∈ d.associated then 1 else 0)
    ∧ (∀ d' eff, Dispatch.dispatch addExec d
          ⟨i, "AddExecutor", Section.payload (PVal.addExecutor e) :: m⟩
          = .ok (d', eff) →
        addExec e ∈ d'.associated ∧ d'.associated.Nodup) := by
  constructor
  · rw [Dispatch.dropCalls,
      List.count_map_of_injective _ _ (fun a b hab => by injection hab) id]
    by_cases hmem : id ∈ d.associated
    · rw [if_pos hmem]
      exact List.count_eq_one_of_mem hnd hmem
    · rw [if_neg hmem]
      exact List.count_eq_zero.mpr hmem
  · intro d' eff h
    have h' : (Except.ok
        ({ d with associated := btreeInsert (addExec e) d.associated },
          DispatchEffect.respondAddExecutor (addExec e)) :
        Except Stop (DispatchState × DispatchEffect)) = .ok (d', eff) := by
      rw [← h]
      rfl
    have hd' : ({ d with associated := btreeInsert (addExec e) d.associated } :
        DispatchState) = d' := by
      injection h' with hh
      exact congrArg Prod.fst hh
    rw [← hd']
    exact ⟨btreeInsert_mem_self _ _, btreeInsert_nodup _ _ hnd⟩

/-- C7 witness: a dispatch holding the token set `{5}` emits exactly one
`remove_executor(5)` on drop, and `AddExecutor` adds the freshly assigned id. -/
theorem c7_executor_release_once_witness :
    (Dispatch.dropCalls ⟨[5]⟩).count (CoordCall.removeExecutor 5)
        = (if 5 ∈ ([5] : List Nat) then 1 else 0)
    ∧ (∀ d' eff, Dispatch.dispatch (fun e => e + 10) ⟨[5]⟩
          ⟨0, "AddExecutor", Section.payload (PVal.addExecutor 1) :: []⟩
          = .ok (d', eff) →
        (fun e => e + 10) 1 ∈ d'.associated ∧ d'.associated.Nodup) :=
  c7_executor_release_once ⟨[5]⟩ (by decide) 5 (fun e => e + 10) 0 1 []

/-- C8 counterexample: `Network::listen`'s `Listener::new` (network/mod.rs
line 135) passes `("::", port)` to `TcpListener::bind` — the unspecified
IPv6 address, not the unspecified IPv4 address the claim states. -/
theorem c8_counterexample :
    (Listener.new "localhost" 9000).bindHost = "::"
    ∧ (Listener.new "localhost" 9000).bindHost ≠ "0.0.0.0" :=
  ⟨rfl, by decide⟩

/-- C8 (amended): the rpc `Server::new` binds to the unspecified IPv4
address `0.0.0.0`, while `Network::listen`'s `Listener::new` binds to the
unspecified IPv6 address `::`; in both, the bind host is a constant
independent of the configured hostname, which is used only for the address
advertised by `external_addr`. -/
theorem c8_bind_addresses (ext : String) (port : Nat) :
    (Server.new ext port).bindHost = "0.0.0.0"
    ∧ (Listener.new ext port).bindHost = "::"
    ∧ externalAddrOf (Server.new ext port) = (ext, port)
    ∧ externalAddrOf (Listener.new ext port) = (ext, port) :=
  ⟨rfl, rfl, rfl, rfl⟩

/-- C10: the frame-building of `Outgoing::request` and of
`Responder::respond` calls `.unwrap()` on every `push`, so the operation
panics (`none`) precisely when serialization of the pushed value fails
(the kind byte, the id and the name always serialize), and on success it
returns the complete frame: an encoding error is never surfaced through the
public return value of either operation. -/
theorem c10_encoding_panics (id : Nat) (name : String)
    (encPayload encRes : Option Section) :
    ((Outgoing.requestOutcome id name encPayload = none ↔ encPayload = none)
      ∧ (Responder.respondOutcome id encRes = none ↔ encRes = none))
    ∧ (∀ s, encPayload = some s →
        Outgoing.requestOutcome id name encPayload
          = some [Section.u8 0, Section.u32 id, Section.str name, s])
    ∧ (∀ s, encRes = some s →
        Responder.respondOutcome id encRes
          = some [Section.u8 1, Section.u32 id, s]) := by
  refine ⟨⟨?_, ?_⟩, ?_, ?_⟩
  · cases encPayload <;>
      simp [Outgoing.requestOutcome, MessageBuf.pushEnc, serU8, serU32, serStr]
  · cases encRes <;>
      simp [Responder.respondOutcome, MessageBuf.pushEnc, serU8, serU32]
  · intro s hs
    subst hs
    rfl
  · intro s hs
    subst hs
    rfl

/-- C10 witness: with a failing payload serializer both operations panic;
with a succeeding one both build the full frame. -/
theorem c10_encoding_panics_witness :
    Outgoing.requestOutcome 3 "Ping" none = none
    ∧ Responder.respondOutcome 3 none = none
    ∧ Outgoing.requestOutcome 3 "Ping" (some (Section.payload (PVal.raw 7)))
        = some [Section.u8 0, Section.u32 3, Section.str "Ping",
            Section.payload (PVal.raw 7)]
    ∧ Responder.respondOutcome 3 (some (Section.result true 7))
        = some [Section.u8 1, Section.u32 3, Section.result true 7] :=
  ⟨(c10_encoding_panics 3 "Ping" none none).1.1.mpr rfl,
   (c10_encoding_panics 3 "Ping" none none).1.2.mpr rfl,
   (c10_encoding_panics 3 "Ping" (some (Section.payload (PVal.raw 7)))
       (some (Section.result true 7))).2.1 _ rfl,
   (c10_encoding_panics 3 "Ping" (some (Section.payload (PVal.raw 7)))
       (some (Section.result true 7))).2.2 _ rfl⟩

end Strymon
